import Mathlib

/-!
Verification of the polarize sailing-telemetry analyzer.

A shallow embedding of the computational core of `polarize.py`: telemetry
normalization, leg indexing, bucket aggregation (circular-aware means and
true-wind derivation), board segmentation, and polar gap interpolation.
Floating-point values are modelled as rationals; timestamps are modelled as
rationals (seconds); Python `None` becomes `Option`.
-/

namespace Polarize

/-! Section: Configuration constants (module-level constants of polarize.py) -/

/-- Minimum true wind angle for polars (`minTWA = 25.0`). -/
def minTWA : ℚ := 25

/-- Maximum true wind angle for polars (`maxTWA = 165.0`). -/
def maxTWA : ℚ := 165

/-- Minimum apparent wind angle for a board (`minAWA = 25.0`). -/
def minAWA : ℚ := 25

/-- Maximum apparent wind angle for a board (`maxAWA = 165.0`). -/
def maxAWA : ℚ := 165

/-- Polar sector span in degrees (`lineSpan = 7.5`). -/
def lineSpan : ℚ := 15 / 2

/-- Meters/second to knots (`ms2kts`): `ms * 1.94384`. -/
def ms2kts (ms : ℚ) : ℚ := ms * (194384 / 100000)

/-! Section: Telemetry normalizer: apparent wind angle normalization

`parse_race_0183`, `"MWV"` branch (line 320):
`awa = awa if awa < 180 else awa - 360`.

`parse_race_n2k`, PGN 130306 branch (line 471):
`awa = awa if awa <= 180.0 else awa - 360.0`.
-/

/-- AWA normalization in the NMEA-0183 (sentence-delimited) parser:
keeps the angle when it is strictly below 180, otherwise subtracts 360. -/
def awaNorm0183 (awa : ℚ) : ℚ := if awa < 180 then awa else awa - 360

/-- AWA normalization in the N2K (structured-record) parser:
keeps the angle when it is at most 180, otherwise subtracts 360. -/
def awaNormN2k (awa : ℚ) : ℚ := if awa ≤ 180 then awa else awa - 360

/-! Section: Python `math.fmod` on rationals -/

/-- Truncation of a rational toward zero, as C/Python `fmod` uses. -/
def ratTrunc (x : ℚ) : ℤ := if 0 ≤ x then ⌊x⌋ else -⌊-x⌋

/-- Python `math.fmod x y` on rationals: `x - y * trunc (x / y)`; the
result has the sign of `x`. -/
def pyfmod (x y : ℚ) : ℚ := x - y * ratTrunc (x / y)

/-- True wind angle from bucket TWD and HDG (`analyze_leg` line 609):
`twa = fmod((TWD - HDG) + 360.0, 360.0)`. -/
def twaOf (twd hdg : ℚ) : ℚ := pyfmod ((twd - hdg) + 360) 360

/-! Section: Circular-aware angle averaging

`analyze_leg` lines 555–571 average the angular fields COG/HDG/TWD of one
bucket: each reading `d` is remapped by
`d if (markBearing > 90 and markBearing < 270) or (d <= 180) else d - 360`,
the remapped readings are summed and divided by their count, and the result
gets `+ 0.0 if (markBearing > 90 and markBearing < 270) or (avg > 0) else
360.0` added back.

`average_sample_fields` lines 634–646 apply the analogous policy to the
angular fields of a list of samples, with the inclusive condition
`(markBearing >= 90 and markBearing <= 270)` and with the back-conversion
`+ 0.0 if d > 0 else 360.0` applied regardless of the bearing.
-/

/-- Remap of one angular reading in the bucket aggregator (`analyze_leg`
line 564): strict northerly test `markBearing > 90 and markBearing < 270`. -/
def bucketAngleItem (markBearing d : ℚ) : ℚ :=
  if (90 < markBearing ∧ markBearing < 270) ∨ d ≤ 180 then d else d - 360

/-- Circular-mean policy of the bucket aggregator (`analyze_leg` lines
555–571) applied to the list of readings of one angular field falling in one
bucket: `None` when there are no readings, otherwise the mean of the remapped
readings with the back-conversion of line 571. -/
def bucketAvgAngle (markBearing : ℚ) (xs : List ℚ) : Option ℚ :=
  let total := (xs.map (bucketAngleItem markBearing)).sum
  let count := xs.length
  if count = 0 then none
  else
    let avg := total / (count : ℚ)
    some (avg + if (90 < markBearing ∧ markBearing < 270) ∨ 0 < avg then 0 else 360)

/-- Remap of one angular sample value in the board/minute/leg summarizer
(`average_sample_fields` line 637): inclusive test
`markBearing >= 90 and markBearing <= 270`. -/
def summAngleItem (markBearing s : ℚ) : ℚ :=
  if (90 ≤ markBearing ∧ markBearing ≤ 270) ∨ s ≤ 180 then s else s - 360

/-- Circular-mean policy of the board/minute/leg summarizer
(`average_sample_fields` lines 634–646) applied to one angular field when
every sample carries the field (so the divisor `len(samples)` equals the
number of contributions): mean of the remapped values, then
`+ 360` when the mean is not positive (line 646, applied for every bearing). -/
def summAvgAngle (markBearing : ℚ) (xs : List ℚ) : Option ℚ :=
  if xs.length = 0 then none
  else
    let avg := (xs.map (summAngleItem markBearing)).sum / (xs.length : ℚ)
    some (avg + if 0 < avg then 0 else 360)

/-! Section: Samples and the board/minute/leg summarizer `average_sample_fields`

A sample (bucket) carries a timestamp and one optional value per tracked
field (`None` when no reading contributed). Field order follows the bucket
dict insertion order in `analyze_leg`: ts, then AWA AWS STW SOG RUD TWS
(linear loop, line 535), then COG HDG TWD (angular loop, line 555), then TWA
(true-wind section, line 610). -/

/-- One bucket/sample of a leg: the timestamp and the ten tracked fields,
each optional. -/
structure SampleData where
  ts : ℚ
  AWA : Option ℚ
  AWS : Option ℚ
  STW : Option ℚ
  SOG : Option ℚ
  RUD : Option ℚ
  TWS : Option ℚ
  COG : Option ℚ
  HDG : Option ℚ
  TWD : Option ℚ
  TWA : Option ℚ
deriving DecidableEq

/-- The non-timestamp values of a bucket, in the dict insertion order of
`analyze_leg` (`bucket.items()` minus the `ts` key). -/
def SampleData.fieldValues (b : SampleData) : List (Option ℚ) :=
  [b.AWA, b.AWS, b.STW, b.SOG, b.RUD, b.TWS, b.COG, b.HDG, b.TWD, b.TWA]

/-- The averaged record `d` built by `average_sample_fields`: one optional
average per field. -/
structure AvgFields where
  AWA : Option ℚ
  AWS : Option ℚ
  STW : Option ℚ
  RUD : Option ℚ
  SOG : Option ℚ
  TWS : Option ℚ
  COG : Option ℚ
  HDG : Option ℚ
  TWD : Option ℚ
  TWA : Option ℚ
deriving DecidableEq

/-- Linear-field average of `average_sample_fields` (lines 630–633 and
640–642): sum the non-null contributions of the field, then divide by
`len(samples)` — the total number of samples, not the number of
contributions (`counts[field]` is tallied at line 633 but never read). -/
def avgLinField (samples : List SampleData) (get : SampleData → Option ℚ) : Option ℚ :=
  let contrib := samples.filterMap get
  if contrib.length = 0 then none
  else some (contrib.sum / (samples.length : ℚ))

/-- Angular-field average of `average_sample_fields` (lines 634–639 and
643–646): sum the remapped non-null contributions, divide by
`len(samples)`, and add 360 when the result is not positive. -/
def avgAngField (samples : List SampleData) (get : SampleData → Option ℚ)
    (markBearing : ℚ) : Option ℚ :=
  let contrib := (samples.filterMap get).map (summAngleItem markBearing)
  if contrib.length = 0 then none
  else
    let v := contrib.sum / (samples.length : ℚ)
    some (v + if 0 < v then 0 else 360)

/-- The summarizer `average_sample_fields(samples, markBearing)` (lines
621–652): averages
every tracked field of a sample list and returns the record when at least
one field has a value, `None` otherwise. -/
def average_sample_fields (samples : List SampleData) (markBearing : ℚ) :
    Option AvgFields :=
  let d : AvgFields :=
    { AWA := avgLinField samples (·.AWA)
      AWS := avgLinField samples (·.AWS)
      STW := avgLinField samples (·.STW)
      RUD := avgLinField samples (·.RUD)
      SOG := avgLinField samples (·.SOG)
      TWS := avgLinField samples (·.TWS)
      COG := avgAngField samples (·.COG) markBearing
      HDG := avgAngField samples (·.HDG) markBearing
      TWD := avgAngField samples (·.TWD) markBearing
      TWA := avgAngField samples (·.TWA) markBearing }
  if d.AWA ≠ none ∨ d.AWS ≠ none ∨ d.STW ≠ none ∨ d.RUD ≠ none ∨ d.SOG ≠ none ∨
     d.TWS ≠ none ∨ d.COG ≠ none ∨ d.HDG ≠ none ∨ d.TWD ≠ none ∨ d.TWA ≠ none then
    some d
  else none

/-! Section: The bucket retention loop of `analyze_leg` (lines 613–617)

```
for key, value in bucket.items():
    if key != 'ts' and value != None:
        l['samples'].append(bucket)
        continue
```

The loop iterates over every item of the bucket; for each non-`ts` key whose
value is not `None` it appends the bucket to the sample list and `continue`s
with the next item (it does not `break`). -/

/-- The retention loop: fold over the bucket's non-timestamp field values
(the `key != 'ts'` test excludes the always-present `ts` item), appending
the bucket once per non-null value. -/
def appendRetainedBucket (samples : List SampleData) (b : SampleData) :
    List SampleData :=
  b.fieldValues.foldl (fun acc v => if v ≠ none then acc ++ [b] else acc) samples

/-! Section: Leg indexer (`analyze_race`, lines 484–508)

For each field, a single forward cursor `i` walks the field's time series
across the legs in order; per leg the cursor is advanced to the first entry
at/after the leg start (`sindex`) and then to the first entry at/after the
leg end (`eindex`). When the field is absent from the race dict, the first
leg gets the zero-length range `(0, 0)` and the per-leg loop is exited with
`break`, leaving the later legs without an entry for the field. -/

/-- Cursor advance `while (i < len(series)) and (series[i] < bound): i += 1`:
move the cursor to the first index at/after `bound` (timestamps only; values
are irrelevant to indexing). -/
def advanceIdx (series : List ℚ) (bound : ℚ) (i : ℕ) : ℕ :=
  if h : i < series.length then
    if series.get ⟨i, h⟩ < bound then advanceIdx series bound (i + 1) else i
  else i
termination_by series.length - i

/-- The per-leg cursor walk for one present field: given the leg windows
`(startts, endts)` in order and the incoming cursor, produce each leg's
`(sindex, eindex)`. -/
def indexLegsFrom (series : List ℚ) : List (ℚ × ℚ) → ℕ → List (ℕ × ℕ)
  | [], _ => []
  | (s, e) :: rest, i =>
    let si := advanceIdx series s i
    let ei := advanceIdx series e si
    (si, ei) :: indexLegsFrom series rest ei

/-- Per-field indexing of `analyze_race`: `none` in the result list marks a
leg whose `sindex`/`eindex` dicts have no entry for the field. A present
field (`some series`) indexes every leg; an absent field sets `(0, 0)` on
the first leg only and `break`s out of the leg loop. -/
def indexField (series : Option (List ℚ)) (legs : List (ℚ × ℚ)) :
    List (Option (ℕ × ℕ)) :=
  match series with
  | some ts => (indexLegsFrom ts legs 0).map some
  | none =>
    match legs with
    | [] => []
    | _ :: rest => some (0, 0) :: rest.map (fun _ => none)

/-! Section: Board segmenter (`analyze_by_minute`, lines 695–715)

The first sample's AWA sign picks the initial board (`Port` when negative).
The loop over the remaining samples ignores AWAs inside the maneuver
exclusion bands (`abs(awa) > minAWA and abs(awa) < maxAWA` must hold for a
sample to count); on a reliable sample whose sign disagrees with the current
board it closes the board at the previous reliable sample's timestamp and
opens a new one at the current sample's timestamp; every reliable sample
extends the current board's end. After the loop the open board is appended
as-is (closing at the last reliable sample seen, with `bend` initialized to
the leg start). -/

/-- A board's tack: the source strings `'Port'` and `'Stbd'`. -/
inductive BoardSide where
  | Port : BoardSide
  | Stbd : BoardSide
deriving DecidableEq

/-- The tack-change scan: walks the samples `(ts, awa)` carrying the current
board and its `bstart`/`bend`, emitting `(bstart, bend, board)` triples. -/
def detectLoop : List (ℚ × ℚ) → BoardSide → ℚ → ℚ → List (ℚ × ℚ × BoardSide)
  | [], board, bstart, bend => [(bstart, bend, board)]
  | (ts, awa) :: rest, board, bstart, bend =>
    if minAWA < |awa| ∧ |awa| < maxAWA then
      if (board = .Stbd ∧ awa < 0) ∨ (board = .Port ∧ 0 < awa) then
        (bstart, bend, board) ::
          detectLoop rest (if awa < 0 then .Port else .Stbd) ts ts
      else detectLoop rest board bstart ts
    else detectLoop rest board bstart bend

/-- Board detection for one leg: samples are `(ts, AWA)` pairs (the AWA of
every retained sample; the source reads `legSamples[i]['AWA']`), `legStart`
is `l['startts']`. The empty case is unreachable in the source (it indexes
`legSamples[0]`). -/
def detectBoards (legStart : ℚ) (samples : List (ℚ × ℚ)) :
    List (ℚ × ℚ × BoardSide) :=
  match samples with
  | [] => []
  | (_, awa0) :: rest =>
    let board : BoardSide := if awa0 < 0 then .Port else .Stbd
    detectLoop rest board legStart legStart

/-! Section: Structured-record (N2K) parser (`parse_race_n2k`, lines 394–474)

Each JSON line carries a timestamp, a PGN, a source device id and a field
map; only the interesting PGNs appear (the conversion step filters them).
Per record the parser: updates the tracked variation when the PGN is 127258
(this happens *before* the race-window checks), then skips the record when
`ts < startts`, stops the whole scan when `ts >= endts`, and otherwise
dispatches on the PGN, appending to the race's series. -/

/-- The payload of one structured record, one constructor per interesting
PGN, carrying exactly the fields the parser reads. -/
inductive N2kMsg where
  | variationMsg (value : ℚ) : N2kMsg
  | posMsg (src : ℕ) (lat lon : ℚ) : N2kMsg
  | rudderMsg (inst : ℕ) (pos : ℚ) : N2kMsg
  | hdgMsg (heading : ℚ) : N2kMsg
  | stwMsg (msSpeed : ℚ) : N2kMsg
  | cogsogMsg (src : ℕ) (cogRefTrue : Bool) (cog sog : ℚ) : N2kMsg
  | windMsg (msSpeed angle : ℚ) : N2kMsg
deriving DecidableEq

/-- The race-parsing configuration: race window, optional source filters and
the rudder correction. -/
structure N2kConfig where
  startts : ℚ
  endts : ℚ
  latlonSource : Option ℕ
  cogsogSource : Option ℕ
  rudderCorrection : ℚ
deriving DecidableEq

/-- The mutable race state built by `parse_race_n2k`: the running variation
local, the race's recorded variation, and the per-field series (appended in
order). -/
structure RaceState where
  variation : ℚ
  rvariation : ℚ
  LATLON : List (ℚ × ℚ × ℚ)
  RUD : List (ℚ × ℚ)
  HDG : List (ℚ × ℚ)
  STW : List (ℚ × ℚ)
  COG : List (ℚ × ℚ)
  SOG : List (ℚ × ℚ)
  AWS : List (ℚ × ℚ)
  AWA : List (ℚ × ℚ)
deriving DecidableEq

/-- The initial state of the scan (`r['variation'] = 0; r['LATLON'] = [];
variation = 0`; the other series start empty from `parse_regatta`). -/
def initialRaceState : RaceState :=
  { variation := 0, rvariation := 0, LATLON := [], RUD := [], HDG := [],
    STW := [], COG := [], SOG := [], AWS := [], AWA := [] }

/-- The in-window PGN dispatch (lines 428–474): appends to the matching
series, applying the source filters, the rudder correction, m/s→knots
conversions, the true-COG variation correction and the AWA normalization.
The variation PGN reaches this point too but appends nothing. -/
def dispatchN2k (cfg : N2kConfig) (st : RaceState) (ts : ℚ) :
    N2kMsg → RaceState
  | .variationMsg _ => st
  | .posMsg src lat lon =>
    if cfg.latlonSource = none ∨ cfg.latlonSource = some src then
      { st with LATLON := st.LATLON ++ [(ts, lat, lon)] }
    else st
  | .rudderMsg inst pos =>
    if inst = 0 then
      { st with RUD := st.RUD ++ [(ts, pos + cfg.rudderCorrection)] }
    else st
  | .hdgMsg heading => { st with HDG := st.HDG ++ [(ts, heading)] }
  | .stwMsg msSpeed => { st with STW := st.STW ++ [(ts, ms2kts msSpeed)] }
  | .cogsogMsg src cogRefTrue cog sog =>
    if cfg.cogsogSource = none ∨ cfg.cogsogSource = some src then
      { st with
        COG := st.COG ++ [(ts, if cogRefTrue then cog - st.variation else cog)]
        SOG := st.SOG ++ [(ts, ms2kts sog)] }
    else st
  | .windMsg msSpeed angle =>
    { st with
      AWS := st.AWS ++ [(ts, ms2kts msSpeed)]
      AWA := st.AWA ++ [(ts, awaNormN2k angle)] }

/-- The record-scan loop of `parse_race_n2k`: per record, track the
variation (before the window checks), skip records before `startts`, stop at
the first record at/after `endts`, and dispatch the rest. -/
def processN2kRecords (cfg : N2kConfig) (st : RaceState) :
    List (ℚ × N2kMsg) → RaceState
  | [] => st
  | (ts, m) :: rest =>
    let st' :=
      match m with
      | .variationMsg v => { st with variation := v, rvariation := v }
      | _ => st
    if ts < cfg.startts then processN2kRecords cfg st' rest
    else if cfg.endts ≤ ts then st'
    else processN2kRecords cfg (dispatchN2k cfg st' ts m) rest

/-! Section: Polar gap interpolation (`plot_polars`, lines 1165–1177)

`points` is the ascending list of populated sector points; each point is a
4-tuple `(theta, mean, p90, bucket)` with `theta = radians(bucket)` —
the loop's tests and arithmetic use only the degree component `bucket`, so a
point is modelled as `(bucket, mean, p90)`. The loop walks adjacent pairs;
when `bprime = b0 + lineSpan` is still below `b1` and both `b0` and `b1`
lie in a sailable band (`[minTWA, maxTWA]` or `[360-maxTWA, 360-minTWA]`),
a linearly interpolated point at bearing `bprime` is inserted between them
and the scan continues from the inserted point. -/

/-- Sailable-band test of the interpolation guard (line 1171):
`(b >= minTWA and b <= maxTWA) or (b >= 360-maxTWA and b <= 360-minTWA)`. -/
def inSailableBand (b : ℚ) : Prop :=
  (minTWA ≤ b ∧ b ≤ maxTWA) ∨ (360 - maxTWA ≤ b ∧ b ≤ 360 - minTWA)

instance (b : ℚ) : Decidable (inSailableBand b) := by
  unfold inSailableBand; infer_instance

/-- The number of `lineSpan` steps from `b0` up to `b1`, used as the
termination measure of the insertion loop. -/
def gapSteps (b0 b1 : ℚ) : ℕ := (⌈(b1 - b0) / lineSpan⌉).toNat

/-- Termination measure for `interpPoints`: the summed step-gaps of adjacent
pairs plus the list length. An insertion shrinks the head gap by one step;
moving on drops one element. -/
def interpMeasure : List (ℚ × ℚ × ℚ) → ℕ
  | [] => 0
  | [_] => 1
  | (b0, _, _) :: (b1, s1, p1) :: rest =>
    gapSteps b0 b1 + 1 + interpMeasure ((b1, s1, p1) :: rest)

/-- The insertion loop: for adjacent points `(b0, s0, p0)` and
`(b1, s1, p1)`, when the guard of line 1171 holds, insert the linear
interpolation at `bprime = b0 + lineSpan` (line 1173–1175) and continue from
it; otherwise move on to the next pair. -/
def interpPoints : List (ℚ × ℚ × ℚ) → List (ℚ × ℚ × ℚ)
  | [] => []
  | [p] => [p]
  | (b0, s0, p0) :: (b1, s1, p1) :: rest =>
    let bprime := b0 + lineSpan
    if bprime < b1 ∧ inSailableBand b0 ∧ inSailableBand b1 then
      (b0, s0, p0) ::
        interpPoints ((bprime,
          s0 + (((s1 - s0) / (b1 - b0)) * (bprime - b0)),
          p0 + (((p1 - p0) / (b1 - b0)) * (bprime - b0))) :: (b1, s1, p1) :: rest)
    else (b0, s0, p0) :: interpPoints ((b1, s1, p1) :: rest)
termination_by l => interpMeasure l
decreasing_by
  · simp only [interpMeasure]
    rename_i h
    have hlt : b0 + lineSpan < b1 := h.1
    have key : gapSteps (b0 + lineSpan) b1 < gapSteps b0 b1 := by
      unfold gapSteps
      have hspan : (0 : ℚ) < lineSpan := by norm_num [lineSpan]
      have h1 : (b1 - (b0 + lineSpan)) / lineSpan = (b1 - b0) / lineSpan - 1 := by
        field_simp; ring
      rw [h1]
      have h2 : (1 : ℚ) < (b1 - b0) / lineSpan := by
        rw [lt_div_iff₀ hspan]; linarith
      have h3 : ⌈(b1 - b0) / lineSpan - 1⌉ = ⌈(b1 - b0) / lineSpan⌉ - 1 :=
        Int.ceil_sub_one _
      rw [h3]
      have h4 : (2 : ℤ) ≤ ⌈(b1 - b0) / lineSpan⌉ := by
        have h5 : ((1 : ℤ) : ℚ) < (b1 - b0) / lineSpan := by exact_mod_cast h2
        have := Int.lt_ceil.mpr h5
        omega
      omega
    omega
  · simp only [interpMeasure]
    omega

/-! Section: Window-confinement predicates for the N2K scan -/

/-- Every entry of `new` was already in `old` or carries a timestamp inside
the race window of `cfg`. -/
def SeriesInWindow (cfg : N2kConfig) {A : Type} (old new : List (ℚ × A)) : Prop :=
  ∀ p ∈ new, p ∈ old ∨ (cfg.startts ≤ p.1 ∧ p.1 < cfg.endts)

/-- Window confinement for every recorded series of the race state:
whatever the scan appended beyond `old` lies inside the race window. -/
def StateInWindow (cfg : N2kConfig) (old new : RaceState) : Prop :=
  SeriesInWindow cfg old.LATLON new.LATLON ∧ SeriesInWindow cfg old.RUD new.RUD ∧
  SeriesInWindow cfg old.HDG new.HDG ∧ SeriesInWindow cfg old.STW new.STW ∧
  SeriesInWindow cfg old.COG new.COG ∧ SeriesInWindow cfg old.SOG new.SOG ∧
  SeriesInWindow cfg old.AWS new.AWS ∧ SeriesInWindow cfg old.AWA new.AWA

/-! Section: Helper lemmas about the leg indexer -/

/-- The cursor `while` loop never moves backward. -/
theorem advanceIdx_le (series : List ℚ) (b : ℚ) : ∀ i : ℕ, i ≤ advanceIdx series b i := by
  have H : ∀ k i, series.length - i ≤ k → i ≤ advanceIdx series b i := by
    intro k
    induction k with
    | zero =>
      intro i hi
      rw [advanceIdx]
      have h : ¬ i < series.length := by omega
      rw [dif_neg h]
    | succ k ih =>
      intro i hi
      rw [advanceIdx]
      by_cases h : i < series.length
      · rw [dif_pos h]
        by_cases h2 : series.get ⟨i, h⟩ < b
        · rw [if_pos h2]
          have := ih (i + 1) (by omega)
          omega
        · rw [if_neg h2]
      · rw [dif_neg h]
  intro i
  exact H series.length i (by omega)

/-- The forward-cursor walk produces, from any incoming cursor `i`, ranges
with `i ≤ sindex ≤ eindex` per leg and `eindex ≤ sindex` across adjacent
legs. -/
theorem indexLegsFrom_spec (series : List ℚ) :
    ∀ (legs : List (ℚ × ℚ)) (i : ℕ),
      (∀ p ∈ indexLegsFrom series legs i, i ≤ p.1 ∧ p.1 ≤ p.2) ∧
      List.Chain' (fun a b : ℕ × ℕ => a.2 ≤ b.1) (indexLegsFrom series legs i) := by
  intro legs
  induction legs with
  | nil => intro i; simp [indexLegsFrom]
  | cons hd rest ih =>
    intro i
    obtain ⟨s, e⟩ := hd
    simp only [indexLegsFrom]
    have h1 : i ≤ advanceIdx series s i := advanceIdx_le series s i
    have h2 : advanceIdx series s i ≤ advanceIdx series e (advanceIdx series s i) :=
      advanceIdx_le series e _
    constructor
    · intro p hp
      rcases List.mem_cons.mp hp with rfl | hp'
      · exact ⟨h1, h2⟩
      · have h := (ih (advanceIdx series e (advanceIdx series s i))).1 p hp'
        exact ⟨le_trans (le_trans h1 h2) h.1, h.2⟩
    · rcases hrest : indexLegsFrom series rest (advanceIdx series e (advanceIdx series s i)) with _ | ⟨q, qs⟩
      · simp
      · rw [List.chain'_cons]
        constructor
        · have h := (ih (advanceIdx series e (advanceIdx series s i))).1 q
            (by rw [hrest]; exact List.mem_cons_self q qs)
          exact h.1
        · have := (ih (advanceIdx series e (advanceIdx series s i))).2
          rw [hrest] at this
          exact this

/-! Section: Helper lemmas about the N2K record scan -/

theorem seriesInWindow_rfl (cfg : N2kConfig) {A : Type} (l : List (ℚ × A)) :
    SeriesInWindow cfg l l := fun _ hp => Or.inl hp

theorem stateInWindow_rfl (cfg : N2kConfig) (st : RaceState) : StateInWindow cfg st st :=
  ⟨seriesInWindow_rfl cfg _, seriesInWindow_rfl cfg _, seriesInWindow_rfl cfg _,
   seriesInWindow_rfl cfg _, seriesInWindow_rfl cfg _, seriesInWindow_rfl cfg _,
   seriesInWindow_rfl cfg _, seriesInWindow_rfl cfg _⟩

theorem seriesInWindow_trans (cfg : N2kConfig) {A : Type} {a b c : List (ℚ × A)}
    (h1 : SeriesInWindow cfg a b) (h2 : SeriesInWindow cfg b c) :
    SeriesInWindow cfg a c := fun p hp => (h2 p hp).elim (fun h => h1 p h) Or.inr

theorem stateInWindow_trans (cfg : N2kConfig) {a b c : RaceState}
    (h1 : StateInWindow cfg a b) (h2 : StateInWindow cfg b c) :
    StateInWindow cfg a c :=
  ⟨seriesInWindow_trans cfg h1.1 h2.1,
   seriesInWindow_trans cfg h1.2.1 h2.2.1,
   seriesInWindow_trans cfg h1.2.2.1 h2.2.2.1,
   seriesInWindow_trans cfg h1.2.2.2.1 h2.2.2.2.1,
   seriesInWindow_trans cfg h1.2.2.2.2.1 h2.2.2.2.2.1,
   seriesInWindow_trans cfg h1.2.2.2.2.2.1 h2.2.2.2.2.2.1,
   seriesInWindow_trans cfg h1.2.2.2.2.2.2.1 h2.2.2.2.2.2.2.1,
   seriesInWindow_trans cfg h1.2.2.2.2.2.2.2 h2.2.2.2.2.2.2.2⟩

theorem seriesInWindow_append (cfg : N2kConfig) {A : Type} (l : List (ℚ × A))
    (ts : ℚ) (v : A) (h1 : cfg.startts ≤ ts) (h2 : ts < cfg.endts) :
    SeriesInWindow cfg l (l ++ [(ts, v)]) := by
  intro p hp
  rcases List.mem_append.mp hp with h | h
  · exact Or.inl h
  · rcases List.mem_singleton.mp h with rfl
    exact Or.inr ⟨h1, h2⟩

/-- One in-window dispatch only appends entries stamped with the in-window
timestamp `ts`. -/
theorem dispatchN2k_inWindow (cfg : N2kConfig) (st : RaceState) (ts : ℚ) (m : N2kMsg)
    (h1 : cfg.startts ≤ ts) (h2 : ts < cfg.endts) :
    StateInWindow cfg st (dispatchN2k cfg st ts m) := by
  cases m with
  | variationMsg v => exact stateInWindow_rfl cfg st
  | posMsg src lat lon =>
    simp only [dispatchN2k]
    split
    · exact ⟨seriesInWindow_append cfg _ ts (lat, lon) h1 h2, seriesInWindow_rfl cfg _,
        seriesInWindow_rfl cfg _, seriesInWindow_rfl cfg _, seriesInWindow_rfl cfg _,
        seriesInWindow_rfl cfg _, seriesInWindow_rfl cfg _, seriesInWindow_rfl cfg _⟩
    · exact stateInWindow_rfl cfg st
  | rudderMsg inst pos =>
    simp only [dispatchN2k]
    split
    · exact ⟨seriesInWindow_rfl cfg _, seriesInWindow_append cfg _ ts _ h1 h2,
        seriesInWindow_rfl cfg _, seriesInWindow_rfl cfg _, seriesInWindow_rfl cfg _,
        seriesInWindow_rfl cfg _, seriesInWindow_rfl cfg _, seriesInWindow_rfl cfg _⟩
    · exact stateInWindow_rfl cfg st
  | hdgMsg heading =>
    exact ⟨seriesInWindow_rfl cfg _, seriesInWindow_rfl cfg _,
      seriesInWindow_append cfg _ ts _ h1 h2, seriesInWindow_rfl cfg _,
      seriesInWindow_rfl cfg _, seriesInWindow_rfl cfg _, seriesInWindow_rfl cfg _,
      seriesInWindow_rfl cfg _⟩
  | stwMsg msSpeed =>
    exact ⟨seriesInWindow_rfl cfg _, seriesInWindow_rfl cfg _, seriesInWindow_rfl cfg _,
      seriesInWindow_append cfg _ ts _ h1 h2, seriesInWindow_rfl cfg _,
      seriesInWindow_rfl cfg _, seriesInWindow_rfl cfg _, seriesInWindow_rfl cfg _⟩
  | cogsogMsg src cogRefTrue cog sog =>
    simp only [dispatchN2k]
    split
    · exact ⟨seriesInWindow_rfl cfg _, seriesInWindow_rfl cfg _, seriesInWindow_rfl cfg _,
        seriesInWindow_rfl cfg _, seriesInWindow_append cfg _ ts _ h1 h2,
        seriesInWindow_append cfg _ ts _ h1 h2, seriesInWindow_rfl cfg _,
        seriesInWindow_rfl cfg _⟩
    · exact stateInWindow_rfl cfg st
  | windMsg msSpeed angle =>
    exact ⟨seriesInWindow_rfl cfg _, seriesInWindow_rfl cfg _, seriesInWindow_rfl cfg _,
      seriesInWindow_rfl cfg _, seriesInWindow_rfl cfg _, seriesInWindow_rfl cfg _,
      seriesInWindow_append cfg _ ts _ h1 h2, seriesInWindow_append cfg _ ts _ h1 h2⟩

/-- Both sailable bands lie between `minTWA` and `360 - minTWA`. -/
theorem inSailableBand_bounds {b : ℚ} (h : inSailableBand b) :
    minTWA ≤ b ∧ b ≤ 360 - minTWA := by
  rcases h with ⟨h1, h2⟩ | ⟨h1, h2⟩ <;>
    constructor <;> norm_num [minTWA, maxTWA] at * <;> linarith

/-! Section: Claim theorems -/

/-- C1: the claim says each averaged field equals the sum of that field's
non-null contributions divided by the number of samples in which the field
is non-null. The code divides by `len(samples)` instead (the per-field
`counts` tally is never read): on two samples of which only the first
carries AWA = 10, the averaged AWA is 10/2 = 5, not 10/1 = 10 — the null
sample biases the mean toward zero exactly as if it were a zero reading. -/
theorem C1_average_divides_by_total_sample_count :
    average_sample_fields
      [⟨0, some 10, none, none, none, none, none, none, none, none, none⟩,
       ⟨10, none, some 5, none, none, none, none, none, none, none, none⟩] 180 =
    some ⟨some 5, some (5/2), none, none, none, none, none, none, none, none⟩ := by
  simp [average_sample_fields, avgLinField, avgAngField, summAngleItem]
  norm_num

/-- C2: the retention loop of `analyze_leg` (lines 613–617) appends the
bucket once per non-null non-timestamp field (`continue`, not `break`): a
bucket with two non-null fields (AWA = -40, AWS = 8) is appended twice,
where the spec requires it to be retained exactly once. -/
theorem C2_bucket_appended_once_per_field :
    appendRetainedBucket []
      ⟨0, some (-40), some 8, none, none, none, none, none, none, none, none⟩ =
    [⟨0, some (-40), some 8, none, none, none, none, none, none, none, none⟩,
     ⟨0, some (-40), some 8, none, none, none, none, none, none, none, none⟩] := by
  simp [appendRetainedBucket, SampleData.fieldValues]

/-- C3 counterexample: for the leg `[0, 50)` with retained samples at
timestamps 0, 10, 20, 30, 40 and AWA sequence `[-40, -40, 40, 40, -40]`
(none in the exclusion bands), the segmenter produces the three boards
`(0, 10, Port)`, `(20, 30, Stbd)`, `(40, 40, Port)`: the Port board ends at
10 while the Stbd board starts at 20 (the ranges are not contiguous and do
not cover the maneuver gap), and the last board closes at 40, not at the
leg end 50 — refuting contiguity, coverage, and closing at the leg end. -/
theorem C3_counterexample :
    detectBoards 0 [(0, -40), (10, -40), (20, 40), (30, 40), (40, -40)] =
      [(0, 10, .Port), (20, 30, .Stbd), (40, 40, .Port)] ∧
    (10 : ℚ) ≠ 20 ∧ (40 : ℚ) ≠ 50 := by
  refine ⟨?_, by norm_num, by norm_num⟩
  simp [detectBoards, detectLoop, minAWA, maxAWA]
  norm_num

/-- C3 (amended): a leg whose retained samples have AWA sequence
`[-40, -40, 40, 40, -40]` at increasing timestamps `t0 < … < t4` produces
exactly 3 boards tagged Port, Starboard, Port, ordered and non-overlapping;
the first opens at the leg start, each closes at the last reliable sample of
its tack, each new board opens at the first reliable sample of the new tack
(leaving a gap over the maneuver), and the last board closes at the last
reliable sample's timestamp — not at the leg end. -/
theorem C3_boards_port_stbd_port (legStart t0 t1 t2 t3 t4 : ℚ)
    (h01 : t0 < t1) (h12 : t1 < t2) (h23 : t2 < t3) (h34 : t3 < t4) :
    detectBoards legStart [(t0, -40), (t1, -40), (t2, 40), (t3, 40), (t4, -40)] =
      [(legStart, t1, .Port), (t2, t3, .Stbd), (t4, t4, .Port)] := by
  simp [detectBoards, detectLoop, minAWA, maxAWA]
  norm_num

/-- C3 witness: the amended board segmentation at the concrete leg of the
counterexample. -/
theorem C3_boards_port_stbd_port_witness :
    detectBoards 0 [(0, -40), (10, -40), (20, 40), (30, 40), (40, -40)] =
      [(0, 10, .Port), (20, 30, .Stbd), (40, 40, .Port)] :=
  C3_boards_port_stbd_port 0 0 10 20 30 40 (by norm_num) (by norm_num)
    (by norm_num) (by norm_num)

/-- C4 counterexample: a position record whose timestamp -1 lies before the
race window [0, 10) is *not* appended to the position series — `parse_race_n2k`
skips it via `ts < startts: continue` before the PGN dispatch is reached
(only the magnetic-variation tracking happens outside the window), refuting
"appended … even when its timestamp lies outside the race window". -/
theorem C4_counterexample :
    (processN2kRecords ⟨0, 10, none, none, 0⟩ initialRaceState
        [(-1, .posMsg 1 3 4)]).LATLON = [] := by
  norm_num [processN2kRecords, initialRaceState]

/-- C4 (amended): position records, like every other field, are appended
only for timestamps within the race window `[start, end)`: whatever the scan
adds to any series of the race state carries an in-window timestamp. (The
source comment "Record LAT/LON even when not on a leg" refers to leg
windows, not the race window.) -/
theorem C4_fields_recorded_only_in_window (cfg : N2kConfig) (st : RaceState)
    (rs : List (ℚ × N2kMsg)) :
    StateInWindow cfg st (processN2kRecords cfg st rs) := by
  induction rs generalizing st with
  | nil => exact stateInWindow_rfl cfg st
  | cons r rest ih =>
    obtain ⟨ts, m⟩ := r
    have hst' : ∀ st2 : RaceState, StateInWindow cfg st st2 →
        StateInWindow cfg st (processN2kRecords cfg st2 rest) := fun st2 h =>
      stateInWindow_trans cfg h (ih st2)
    simp only [processN2kRecords]
    by_cases hlt : ts < cfg.startts
    · rw [if_pos hlt]
      cases m with
      | variationMsg v => exact hst' _ (stateInWindow_rfl cfg st)
      | posMsg src lat lon => exact hst' _ (stateInWindow_rfl cfg st)
      | rudderMsg inst pos => exact hst' _ (stateInWindow_rfl cfg st)
      | hdgMsg heading => exact hst' _ (stateInWindow_rfl cfg st)
      | stwMsg msSpeed => exact hst' _ (stateInWindow_rfl cfg st)
      | cogsogMsg src cogRefTrue cog sog => exact hst' _ (stateInWindow_rfl cfg st)
      | windMsg msSpeed angle => exact hst' _ (stateInWindow_rfl cfg st)
    · rw [if_neg hlt]
      by_cases hend : cfg.endts ≤ ts
      · rw [if_pos hend]
        cases m with
        | variationMsg v => exact stateInWindow_rfl cfg st
        | posMsg src lat lon => exact stateInWindow_rfl cfg st
        | rudderMsg inst pos => exact stateInWindow_rfl cfg st
        | hdgMsg heading => exact stateInWindow_rfl cfg st
        | stwMsg msSpeed => exact stateInWindow_rfl cfg st
        | cogsogMsg src cogRefTrue cog sog => exact stateInWindow_rfl cfg st
        | windMsg msSpeed angle => exact stateInWindow_rfl cfg st
      · rw [if_neg hend]
        have hw1 : cfg.startts ≤ ts := not_lt.mp hlt
        have hw2 : ts < cfg.endts := not_le.mp hend
        cases m with
        | variationMsg v =>
          exact hst' _ (dispatchN2k_inWindow cfg st ts (.variationMsg v) hw1 hw2)
        | posMsg src lat lon =>
          exact hst' _ (dispatchN2k_inWindow cfg st ts (.posMsg src lat lon) hw1 hw2)
        | rudderMsg inst pos =>
          exact hst' _ (dispatchN2k_inWindow cfg st ts (.rudderMsg inst pos) hw1 hw2)
        | hdgMsg heading =>
          exact hst' _ (dispatchN2k_inWindow cfg st ts (.hdgMsg heading) hw1 hw2)
        | stwMsg msSpeed =>
          exact hst' _ (dispatchN2k_inWindow cfg st ts (.stwMsg msSpeed) hw1 hw2)
        | cogsogMsg src cogRefTrue cog sog =>
          exact hst' _ (dispatchN2k_inWindow cfg st ts (.cogsogMsg src cogRefTrue cog sog) hw1 hw2)
        | windMsg msSpeed angle =>
          exact hst' _ (dispatchN2k_inWindow cfg st ts (.windMsg msSpeed angle) hw1 hw2)

/-- C4 witness: the position entry recorded at timestamp 1 during a scan of
the window [0, 10) is accounted for by the theorem — it is either an initial
entry or in-window (here: in-window). -/
theorem C4_fields_recorded_only_in_window_witness :
    ((1 : ℚ), ((3 : ℚ), (4 : ℚ))) ∈ initialRaceState.LATLON ∨
      ((0 : ℚ) ≤ 1 ∧ (1 : ℚ) < 10) :=
  (C4_fields_recorded_only_in_window ⟨0, 10, none, none, 0⟩ initialRaceState
      [(1, .posMsg 5 3 4)]).1 (1, 3, 4)
    (by norm_num [processN2kRecords, dispatchN2k, initialRaceState])

/-- C5: when a tracked field is absent from the race's raw data, the
indexing loop of `analyze_race` sets the zero-length range `(0, 0)` on the
first leg and then `break`s out of the leg loop, so on a race with two legs
the second leg gets no `sindex`/`eindex` entry for the field — every later
lookup of that entry fails, contradicting "every leg … zero-length range …
never an error". -/
theorem C5_missing_field_indexes_first_leg_only :
    indexField none [(0, 10), (20, 30)] = [some (0, 0), none] := rfl

/-- C6 counterexample: at leg bearing exactly 90° with angular samples
{350°, 10°} in one group, the bucket aggregator's policy (strict test
`90 < b < 270`) remaps and returns 360, while the summarizer's policy
(inclusive test `90 ≤ b ≤ 270`) does not remap and returns 180 — the two
circular-mean policies are not the same function. -/
theorem C6_counterexample :
    bucketAvgAngle 90 [350, 10] = some 360 ∧
    summAvgAngle 90 [350, 10] = some 180 := by
  constructor
  · norm_num [bucketAvgAngle, bucketAngleItem]
  · norm_num [summAvgAngle, summAngleItem]

/-- C6 (amended): the two circular-mean policies agree away from the
90°/270° boundary: for any leg bearing other than exactly 90° or 270° and
any non-empty multiset of angular samples in [0, 360) — with, for a strictly
southerly bearing, at least one strictly positive sample (when every sample
is exactly 0° the summarizer's unconditional back-conversion of line 646
returns 360 where the aggregator returns 0) — the bucket aggregator and the
board/minute/leg summarizer produce equal averages. At bearing exactly 90°
or 270° the policies differ (see the counterexample). -/
theorem C6_policies_agree_off_boundary (markBearing : ℚ) (xs : List ℚ)
    (hne : xs ≠ [])
    (hrange : ∀ x ∈ xs, 0 ≤ x ∧ x < 360)
    (h90 : markBearing ≠ 90) (h270 : markBearing ≠ 270)
    (hpos : 90 < markBearing ∧ markBearing < 270 → ∃ x ∈ xs, 0 < x) :
    bucketAvgAngle markBearing xs = summAvgAngle markBearing xs := by
  have hlen : xs.length ≠ 0 := fun h => hne (List.length_eq_zero.mp h)
  have hlenpos : (0 : ℚ) < (xs.length : ℚ) := by
    exact_mod_cast List.length_pos.mpr hne
  by_cases hs : 90 < markBearing ∧ markBearing < 270
  · have hitem : ∀ d : ℚ, bucketAngleItem markBearing d = d := fun d => if_pos (Or.inl hs)
    have hitem2 : ∀ d : ℚ, summAngleItem markBearing d = d := fun d =>
      if_pos (Or.inl ⟨le_of_lt hs.1, le_of_lt hs.2⟩)
    have m1 : xs.map (bucketAngleItem markBearing) = xs := by
      conv_rhs => rw [(List.map_id xs).symm]
      exact List.map_congr_left fun a _ => hitem a
    have m2 : xs.map (summAngleItem markBearing) = xs := by
      conv_rhs => rw [(List.map_id xs).symm]
      exact List.map_congr_left fun a _ => hitem2 a
    obtain ⟨x, hx, hxpos⟩ := hpos hs
    have hsum : 0 < xs.sum :=
      lt_of_lt_of_le hxpos (List.single_le_sum (fun y hy => (hrange y hy).1) x hx)
    have havg : 0 < xs.sum / (xs.length : ℚ) := div_pos hsum hlenpos
    simp only [bucketAvgAngle, summAvgAngle, m1, m2, if_neg hlen]
    rw [if_pos (Or.inl hs), if_pos havg]
  · have hns : markBearing < 90 ∨ 270 < markBearing := by
      rcases not_and_or.mp hs with h | h
      · exact Or.inl (lt_of_le_of_ne (not_lt.mp h) h90)
      · exact Or.inr (lt_of_le_of_ne (not_lt.mp h) (Ne.symm h270))
    have hni : ¬(90 ≤ markBearing ∧ markBearing ≤ 270) := by
      rcases hns with h | h
      · intro hc; linarith [hc.1]
      · intro hc; linarith [hc.2]
    have hitem : ∀ d : ℚ, bucketAngleItem markBearing d = summAngleItem markBearing d := by
      intro d
      unfold bucketAngleItem summAngleItem
      by_cases hd : d ≤ 180
      · rw [if_pos (Or.inr hd), if_pos (Or.inr hd)]
      · rw [if_neg (by tauto), if_neg (by tauto)]
    have m1 : xs.map (bucketAngleItem markBearing) = xs.map (summAngleItem markBearing) :=
      List.map_congr_left fun a _ => hitem a
    simp only [bucketAvgAngle, summAvgAngle, m1, if_neg hlen]
    by_cases hA : 0 < (xs.map (summAngleItem markBearing)).sum / (xs.length : ℚ)
    · rw [if_pos (Or.inr hA), if_pos hA]
    · rw [if_neg (by tauto), if_neg hA]

/-- C6 witness: the two policies agree at the southerly bearing 180° on the
samples {100°, 120°}. -/
theorem C6_policies_agree_off_boundary_witness :
    bucketAvgAngle 180 [100, 120] = summAvgAngle 180 [100, 120] :=
  C6_policies_agree_off_boundary 180 [100, 120] (by simp)
    (by intro x hx; rcases List.mem_cons.mp hx with rfl | hx' <;>
          [norm_num; (rcases List.mem_cons.mp hx' with rfl | h <;> [norm_num; simp at h])])
    (by norm_num) (by norm_num)
    (fun _ => ⟨100, by simp, by norm_num⟩)

/-- C7 counterexample: averaging the heading samples 350° and 10° in one
bucket with the *southerly* leg bearing 180° returns the naive arithmetic
mean 180° — the remap to (-180, 180] only happens for northerly bearings,
so the claimed result 0° is refuted. -/
theorem C7_counterexample : bucketAvgAngle 180 [350, 10] = some 180 := by
  norm_num [bucketAvgAngle, bucketAngleItem]

/-- C7 (amended): averaging the heading samples 350° and 10° in one bucket
for a leg whose nominal bearing is *northerly* (outside the 90°–270°
sector, e.g. 20°) yields 360° — the remapped circular mean 0° stored as 360
by the back-conversion of line 571 (`+ 360` when the mean is not positive),
equal to 0° mod 360° and not the naive mean 180°. With a southerly bearing
the naive 180° is returned. -/
theorem C7_northerly_circular_mean : bucketAvgAngle 20 [350, 10] = some 360 := by
  norm_num [bucketAvgAngle, bucketAngleItem]

/-- C8 counterexample: the NMEA-0183 parser normalizes with the strict test
`awa < 180` (line 320), so an input angle of exactly 180° is stored as
-180°, not 180° — refuting "in either encoding … 180° stays 180°" and the
claimed range (-180, 180] for the 0183 encoding. -/
theorem C8_counterexample : awaNorm0183 180 = -180 := by
  norm_num [awaNorm0183]

/-- C8 (amended): for raw input angles in [0, 360], the structured-record
(N2K) encoding stores an apparent wind angle in (-180, 180] — in particular
180° stays 180° — while the sentence (0183) encoding stores an angle in
[-180, 180), turning an input of exactly 180° into -180°; and the derived
true wind angle `fmod((TWD - HDG) + 360, 360)` lies in [0, 360) whenever its
argument is nonnegative (as it is for bucket values of TWD and HDG). -/
theorem C8_normalization_ranges (a twd hdg : ℚ) (ha : 0 ≤ a) (ha360 : a ≤ 360)
    (hx : 0 ≤ twd - hdg + 360) :
    (-180 < awaNormN2k a ∧ awaNormN2k a ≤ 180) ∧
    (-180 ≤ awaNorm0183 a ∧ awaNorm0183 a < 180) ∧
    (0 ≤ twaOf twd hdg ∧ twaOf twd hdg < 360) := by
  refine ⟨?_, ?_, ?_⟩
  · unfold awaNormN2k
    by_cases h : a ≤ 180
    · rw [if_pos h]; constructor <;> linarith
    · rw [if_neg h]; push_neg at h; constructor <;> linarith
  · unfold awaNorm0183
    by_cases h : a < 180
    · rw [if_pos h]; constructor <;> linarith
    · rw [if_neg h]; push_neg at h; constructor <;> linarith
  · unfold twaOf pyfmod ratTrunc
    have hq : (0 : ℚ) ≤ (twd - hdg + 360) / 360 := div_nonneg hx (by norm_num)
    rw [if_pos hq]
    have key : twd - hdg + 360 - 360 * (⌊(twd - hdg + 360) / 360⌋ : ℚ) =
        360 * Int.fract ((twd - hdg + 360) / 360) := by
      rw [Int.fract]
      field_simp
    rw [key]
    constructor
    · exact mul_nonneg (by norm_num) (Int.fract_nonneg _)
    · have h1 := Int.fract_lt_one ((twd - hdg + 360) / 360)
      nlinarith [h1]

/-- C8 witness: the ranges at the concrete inputs a = 90°, TWD = 350°,
HDG = 10°. -/
theorem C8_normalization_ranges_witness :
    (-180 < awaNormN2k 90 ∧ awaNormN2k 90 ≤ 180) ∧
    (-180 ≤ awaNorm0183 90 ∧ awaNorm0183 90 < 180) ∧
    (0 ≤ twaOf 350 10 ∧ twaOf 350 10 < 360) :=
  C8_normalization_ranges 90 350 10 (by norm_num) (by norm_num) (by norm_num)

/-- C9 counterexample: with populated sector points at bearings 160°
(starboard sailable band) and 200° (port sailable band), the interpolation
guard accepts the pair — it checks each endpoint against *a* sailable band,
not the *same* band — and inserts a point at bearing 167.5°, inside the
dead-downwind zone (165°, 195°), even though the endpoints lie on opposite
sides. -/
theorem C9_counterexample :
    interpPoints [(160, 6, 7), (200, 5, 6)] =
      [(160, 6, 7), (335/2, 93/16, 109/16), (200, 5, 6)] ∧
    maxTWA < 335/2 ∧ (335/2 : ℚ) < 360 - maxTWA := by
  refine ⟨?_, by norm_num [maxTWA], by norm_num [maxTWA]⟩
  rw [interpPoints]
  norm_num [inSailableBand, minTWA, maxTWA, lineSpan]
  rw [interpPoints]
  norm_num [inSailableBand, minTWA, maxTWA, lineSpan]
  rw [interpPoints]

/-- C9 (amended): every point of the interpolated sequence is either an
original populated-sector point or an inserted point lying one sector span
above a sector in a sailable band and strictly below another sector in a
sailable band — the two bands need not be the same, so an inserted bearing
can fall inside the dead-downwind zone (see the counterexample), but it
always lies in [minTWA + lineSpan, 360 - minTWA), outside the no-go zone
around head-to-wind. -/
theorem C9_interpolation_stays_out_of_nogo (pts : List (ℚ × ℚ × ℚ))
    (q : ℚ × ℚ × ℚ) (hq : q ∈ interpPoints pts) :
    q ∈ pts ∨
      (∃ b0 b1, inSailableBand b0 ∧ inSailableBand b1 ∧
        q.1 = b0 + lineSpan ∧ q.1 < b1 ∧
        minTWA + lineSpan ≤ q.1 ∧ q.1 < 360 - minTWA) := by
  induction pts using interpPoints.induct generalizing q with
  | case1 =>
    rw [interpPoints] at hq
    simp at hq
  | case2 p =>
    rw [interpPoints] at hq
    rcases List.mem_singleton.mp hq with rfl
    exact Or.inl (List.mem_singleton.mpr rfl)
  | case3 b0 s0 p0 b1 s1 p1 rest bprime h ih =>
    rw [interpPoints, if_pos h] at hq
    rcases List.mem_cons.mp hq with rfl | hq2
    · exact Or.inl (List.mem_cons_self _ _)
    · rcases ih _ hq2 with hmem | hshape
      · rcases List.mem_cons.mp hmem with rfl | hmem2
        · right
          obtain ⟨hb0a, hb0b⟩ := inSailableBand_bounds h.2.1
          obtain ⟨hb1a, hb1b⟩ := inSailableBand_bounds h.2.2
          have hlt : b0 + lineSpan < b1 := h.1
          refine ⟨b0, b1, h.2.1, h.2.2, rfl, hlt, ?_, ?_⟩
          · show minTWA + lineSpan ≤ b0 + lineSpan
            linarith
          · show b0 + lineSpan < 360 - minTWA
            linarith
        · exact Or.inl (List.mem_cons_of_mem _ hmem2)
      · exact Or.inr hshape
  | case4 b0 s0 p0 b1 s1 p1 rest bprime h ih =>
    rw [interpPoints, if_neg h] at hq
    rcases List.mem_cons.mp hq with rfl | hq2
    · exact Or.inl (List.mem_cons_self _ _)
    · rcases ih _ hq2 with hmem | hshape
      · exact Or.inl (List.mem_cons_of_mem _ hmem)
      · exact Or.inr hshape

/-- C9 witness: the theorem applied to the point inserted at bearing 167.5°
between the sectors at 160° and 200°. -/
theorem C9_interpolation_stays_out_of_nogo_witness :
    ((335/2 : ℚ), ((93/16 : ℚ), (109/16 : ℚ))) ∈
        ([(160, 6, 7), (200, 5, 6)] : List (ℚ × ℚ × ℚ)) ∨
      (∃ b0 b1, inSailableBand b0 ∧ inSailableBand b1 ∧
        (335/2 : ℚ) = b0 + lineSpan ∧ (335/2 : ℚ) < b1 ∧
        minTWA + lineSpan ≤ (335/2 : ℚ) ∧ (335/2 : ℚ) < 360 - minTWA) :=
  C9_interpolation_stays_out_of_nogo [(160, 6, 7), (200, 5, 6)]
    (335/2, 93/16, 109/16)
    (by
      have He : interpPoints [(160, 6, 7), (200, 5, 6)] =
          [(160, 6, 7), (335/2, 93/16, 109/16), (200, 5, 6)] := by
        rw [interpPoints]
        norm_num [inSailableBand, minTWA, maxTWA, lineSpan]
        rw [interpPoints]
        norm_num [inSailableBand, minTWA, maxTWA, lineSpan]
        rw [interpPoints]
      rw [He]
      norm_num)

/-- C10: for a race whose per-field series have non-decreasing timestamps
and whose leg windows are chronologically ordered and non-overlapping, the
per-field `sindex`/`eindex` computed by the shared forward cursor satisfy
`sindex ≤ eindex` within each leg and `eindex ≤ sindex` across successive
legs — monotone non-decreasing across the legs (the cursor in fact never
moves backward for any input). -/
theorem C10_leg_indices_monotone (series : List ℚ) (legs : List (ℚ × ℚ))
    (hseries : List.Pairwise (· ≤ ·) series)
    (hchron : List.Chain' (fun a b : ℚ × ℚ => a.2 ≤ b.1) legs)
    (hwf : ∀ l ∈ legs, l.1 ≤ l.2) :
    (∀ p ∈ indexLegsFrom series legs 0, p.1 ≤ p.2) ∧
    List.Chain' (fun a b : ℕ × ℕ => a.2 ≤ b.1) (indexLegsFrom series legs 0) :=
  ⟨fun p hp => ((indexLegsFrom_spec series legs 0).1 p hp).2,
   (indexLegsFrom_spec series legs 0).2⟩

/-- C10 witness: monotone indices for a sorted six-entry series and two
chronologically ordered legs. -/
theorem C10_leg_indices_monotone_witness :
    (∀ p ∈ indexLegsFrom [1, 2, 3, 22, 25, 40] [(0, 10), (20, 30)] 0, p.1 ≤ p.2) ∧
    List.Chain' (fun a b : ℕ × ℕ => a.2 ≤ b.1)
      (indexLegsFrom [1, 2, 3, 22, 25, 40] [(0, 10), (20, 30)] 0) :=
  C10_leg_indices_monotone [1, 2, 3, 22, 25, 40] [(0, 10), (20, 30)]
    (by norm_num [List.pairwise_cons])
    (by norm_num [List.chain'_cons])
    (by norm_num)

end Polarize
